import Mathlib

/-!
Shallow embedding of `src/vec3d/math/vector3d_math.py`.

Vectors are modelled as `List α` over a commutative ring `α` (the Python code
works on tuples of `int | float`; integer-valued examples are settled over
`ℤ`, the square-root based operations over `ℝ`).  Python's `zip` truncates to
the shortest operand, and `zip(*vectors)` is a truncating transpose; both are
modelled exactly.  A Python `raise` is modelled as `Except.error` (for the
explicit `ValueError`s in `add` and `linear_combination`) or `Option`
(for the incidental unpacking / division-by-zero failures in `cross` and
`unit`).
-/

namespace Vec3d

/-- `scale(s, v)`: `tuple(s * coord_component for coord_component in v)`. -/
def scale {α : Type} [CommRing α] (s : α) (v : List α) : List α :=
  v.map (fun c => s * c)

/-- Length of the shortest list among `vs`; the number of tuples produced by
Python's `zip(*vs)` (0 when `vs` is empty, like `zip()`). -/
def minLen {α : Type} (vs : List (List α)) : Nat :=
  match vs with
  | [] => 0
  | v :: rest => rest.foldl (fun m w => min m w.length) v.length

/-- `zip(*vectors)`: the truncating transpose.  The `i`-th produced tuple
collects the `i`-th component of every vector, for `i` below every length. -/
def zipCoords {α : Type} [CommRing α] (vs : List (List α)) : List (List α) :=
  (List.range (minLen vs)).map (fun i => vs.map (fun v => v.getD i 0))

/-- `add(*vectors)`: raises `ValueError` when fewer than two vectors are
given, otherwise sums each coordinate group of the truncating transpose. -/
def add {α : Type} [CommRing α] (vs : List (List α)) : Except String (List α) :=
  if vs.length < 2 then .error "at least two 3D vectors were expected"
  else .ok ((zipCoords vs).map List.sum)

/-- `subtract(v, w)`: `tuple([v_c - w_c for v_c, w_c in zip(v, w)])`;
`zip` truncates to the shorter operand. -/
def subtract {α : Type} [CommRing α] (v w : List α) : List α :=
  (v.zip w).map (fun p => p.1 - p.2)

/-- `dot(u, v)`: `sum((coord_u * coord_v) for ... in zip(u, v))`;
`zip` truncates to the shorter operand. -/
def dot {α : Type} [CommRing α] (u v : List α) : α :=
  ((u.zip v).map (fun p => p.1 * p.2)).sum

/-- `length(v)`: `sqrt(sum([coord**2 for coord in v]))`. -/
noncomputable def length (v : List ℝ) : ℝ :=
  Real.sqrt ((v.map (fun c => c ^ 2)).sum)

/-- `to_radians(angle_deg)`: `angle_deg * pi / 180`. -/
noncomputable def to_radians (angle_deg : ℝ) : ℝ :=
  angle_deg * Real.pi / 180

/-- `to_degrees(angle_rad)`: `angle_rad * 180 / pi`. -/
noncomputable def to_degrees (angle_rad : ℝ) : ℝ :=
  angle_rad * 180 / Real.pi

/-- `cross(u, v)`: unpacks `ux, uy, uz = u` and `vx, vy, vz = v` (which
raises unless both have exactly three components, modelled by `none`) and
returns the standard 3D cross product. -/
def cross {α : Type} [CommRing α] : List α → List α → Option (List α)
  | ux :: uy :: uz :: [], vx :: vy :: vz :: [] =>
      some [uy * vz - uz * vy, uz * vx - ux * vz, ux * vy - uy * vx]
  | _, _ => none

/-- `linear_combination(scalars, *vectors)`: raises `ValueError` when the
counts differ, otherwise `add(*[scale(s, v) for s, v in zip(scalars, vectors)])`. -/
def linear_combination {α : Type} [CommRing α]
    (scalars : List α) (vectors : List (List α)) : Except String (List α) :=
  if scalars.length ≠ vectors.length then
    .error "The same number of scalars and vectors are required"
  else
    add ((scalars.zip vectors).map (fun p => scale p.1 p.2))

/-- `unit(v)`: `scale(1.0 / length(v), v)`; the division raises
`ZeroDivisionError` when `length(v)` is zero, modelled by `none`. -/
noncomputable def unit (v : List ℝ) : Option (List ℝ) :=
  if length v = 0 then none else some (scale (1 / length v) v)

/-! ## Helper lemmas -/

theorem foldl_min_length {α : Type} (N : Nat) :
    ∀ (l : List (List α)) (m : Nat), (∀ w ∈ l, w.length = N) → m = N →
      l.foldl (fun m w => min m w.length) m = N := by
  intro l
  induction l with
  | nil => intro m _ hm; simpa using hm
  | cons w rest ih =>
      intro m hl hm
      have hw : w.length = N := hl w (List.mem_cons_self w rest)
      have hmin : min m w.length = N := by rw [hm, hw, min_self]
      exact ih _ (fun x hx => hl x (List.mem_cons_of_mem _ hx)) hmin

theorem minLen_eq {α : Type} (vs : List (List α)) (N : Nat)
    (hne : vs ≠ []) (hN : ∀ v ∈ vs, v.length = N) : minLen vs = N := by
  match vs with
  | [] => exact absurd rfl hne
  | v :: rest =>
      have hv : v.length = N := hN v (List.mem_cons_self v rest)
      exact foldl_min_length N rest v.length
        (fun w hw => hN w (List.mem_cons_of_mem _ hw)) hv

theorem getD_map_range {α : Type} (n i : Nat) (g : Nat → α) (d : α)
    (hi : i < n) : ((List.range n).map g).getD i d = g i := by
  rw [List.getD_eq_getElem?_getD, List.getElem?_map, List.getElem?_range hi]
  rfl

/-- When at least two vectors are supplied and all have length `N`, `add`
succeeds and its result has length `N`, the `i`-th component being the sum
of the operands' `i`-th components. -/
theorem add_ok_spec {α : Type} [CommRing α] (vs : List (List α)) (N : Nat)
    (h2 : 2 ≤ vs.length) (hN : ∀ v ∈ vs, v.length = N) :
    ∃ r, add vs = .ok r ∧ r.length = N ∧
      ∀ i, i < N → r.getD i 0 = (vs.map (fun v => v.getD i 0)).sum := by
  have hne : vs ≠ [] := by
    intro h; rw [h] at h2; simp at h2
  have hmin : minLen vs = N := minLen_eq vs N hne hN
  have hnot : ¬ vs.length < 2 := not_lt.mpr h2
  refine ⟨(zipCoords vs).map List.sum, ?_, ?_, ?_⟩
  · simp [add, hnot]
  · simp [zipCoords, hmin]
  · intro i hi
    rw [zipCoords, hmin, List.map_map]
    exact getD_map_range N i _ 0 hi

theorem scale_length {α : Type} [CommRing α] (s : α) (v : List α) :
    (scale s v).length = v.length := by
  simp [scale]

theorem scale_getD {α : Type} [CommRing α] (s : α) (v : List α) (i : Nat) :
    (scale s v).getD i 0 = s * v.getD i 0 := by
  rw [scale, List.getD_eq_getElem?_getD, List.getElem?_map,
    List.getD_eq_getElem?_getD]
  cases v[i]? with
  | none => simp
  | some a => simp

/-- When the scalar and vector counts agree, at least two vectors are
supplied and all have length `L`, `linear_combination` succeeds and its
result is the component-wise weighted sum. -/
theorem lc_ok_spec {α : Type} [CommRing α] (scalars : List α)
    (vectors : List (List α)) (L : Nat)
    (hc : scalars.length = vectors.length) (h2 : 2 ≤ vectors.length)
    (hL : ∀ v ∈ vectors, v.length = L) :
    ∃ r, linear_combination scalars vectors = .ok r ∧ r.length = L ∧
      ∀ i, i < L →
        r.getD i 0 = ((scalars.zip vectors).map (fun p => p.1 * p.2.getD i 0)).sum := by
  have hzlen : (scalars.zip vectors).length = vectors.length := by
    rw [List.length_zip, hc, min_self]
  have hslen : ((scalars.zip vectors).map (fun p => scale p.1 p.2)).length =
      vectors.length := by
    rw [List.length_map, hzlen]
  have hmem : ∀ w ∈ (scalars.zip vectors).map (fun p => scale p.1 p.2),
      w.length = L := by
    intro w hw
    obtain ⟨p, hp, rfl⟩ := List.mem_map.mp hw
    rw [scale_length]
    exact hL p.2 (List.of_mem_zip hp).2
  obtain ⟨r, hr, hrlen, hrcomp⟩ :=
    add_ok_spec ((scalars.zip vectors).map (fun p => scale p.1 p.2)) L
      (hslen ▸ h2) hmem
  refine ⟨r, ?_, hrlen, ?_⟩
  · rw [linear_combination, if_neg (by simp [hc])]
    exact hr
  · intro i hi
    rw [hrcomp i hi, List.map_map]
    have hfun : ((fun v : List α => v.getD i 0) ∘ fun p : α × List α => scale p.1 p.2) =
        fun p : α × List α => p.1 * p.2.getD i 0 := by
      funext p
      exact scale_getD p.1 p.2 i
    rw [hfun]

theorem sumsq_nonneg (v : List ℝ) : 0 ≤ (v.map (fun c => c ^ 2)).sum := by
  apply List.sum_nonneg
  intro x hx
  obtain ⟨c, _, rfl⟩ := List.mem_map.mp hx
  exact sq_nonneg c

theorem length_nonneg (v : List ℝ) : 0 ≤ length v :=
  Real.sqrt_nonneg _

theorem sum_map_mul_left (l : List ℝ) (f : ℝ → ℝ) (r : ℝ) :
    (l.map (fun c => r * f c)).sum = r * (l.map f).sum := by
  induction l with
  | nil => simp
  | cons a t ih => simp [ih, mul_add]

theorem length_scale (s : ℝ) (v : List ℝ) : length (scale s v) = |s| * length v := by
  have hmap : (scale s v).map (fun c => c ^ 2) = v.map (fun c => s ^ 2 * c ^ 2) := by
    rw [scale, List.map_map]
    congr 1
    funext c
    simp [mul_pow]
  have hsum : ((scale s v).map (fun c => c ^ 2)).sum =
      s ^ 2 * (v.map (fun c => c ^ 2)).sum := by
    rw [hmap]
    exact sum_map_mul_left v (fun c => c ^ 2) (s ^ 2)
  rw [length, hsum, Real.sqrt_mul (sq_nonneg s), Real.sqrt_sq_eq_abs, length]

theorem length_pos_of_mem_ne_zero {v : List ℝ} {c : ℝ} (hc : c ∈ v) (hne : c ≠ 0) :
    0 < length v := by
  apply Real.sqrt_pos.mpr
  have hle : c ^ 2 ≤ (v.map (fun x => x ^ 2)).sum := by
    apply List.single_le_sum
    · intro x hx
      obtain ⟨a, _, rfl⟩ := List.mem_map.mp hx
      exact sq_nonneg a
    · exact List.mem_map_of_mem (fun x => x ^ 2) hc
  have hc2 : 0 < c ^ 2 := lt_of_le_of_ne (sq_nonneg c) (Ne.symm (pow_ne_zero 2 hne))
  exact lt_of_lt_of_le hc2 hle

theorem cross_eq_some_lengths {α : Type} [CommRing α] {u v w : List α}
    (h : cross u v = some w) : u.length = 3 ∧ v.length = 3 := by
  unfold cross at h
  split at h
  · simp_all
  · exact absurd h (by simp)

/-! ## Claim theorems -/

/-- C1: the claim is refuted by the code: `add` over vectors of different
lengths does not raise a shape-mismatch error; `zip` silently truncates to
the shortest operand, so `add((1,2,3), (4,5))` returns `(5, 7)`.  The
repository's own test suite expects a `TypeError` on exactly this input. -/
theorem add_mismatched_lengths_truncates :
    add ([[1, 2, 3], [4, 5]] : List (List ℤ)) = .ok [5, 7] := by rfl

/-- C2: the claim is refuted by the code: `subtract` and `dot` over vectors
of different lengths do not raise; `zip` silently truncates, so
`subtract((1,2,3), (4,5))` returns `(-3, -3)` and `dot((1,2,3), (4,5))`
returns `14`.  The repository's own tests expect a `TypeError` on exactly
these inputs. -/
theorem subtract_dot_mismatched_lengths_return_values :
    subtract ([1, 2, 3] : List ℤ) [4, 5] = [-3, -3] ∧
    dot ([1, 2, 3] : List ℤ) [4, 5] = 14 :=
  ⟨by rfl, by rfl⟩

/-- C3 counterexample: at `N = 1` the claim fails: `linear_combination`
with one scalar and one vector does not return the weighted sum; the inner
`add` receives a single vector and raises `ValueError`. -/
theorem linear_combination_single_pair_errors :
    linear_combination ([2] : List ℤ) [[1, 2]] =
      .error "at least two 3D vectors were expected" := by rfl

/-- C3 (amended to `N ≥ 2`): given `N ≥ 2` scalars and `N` vectors all of
equal length, `linear_combination` returns the component-wise weighted sum
`Σ scalars[i] × vᵢ` without error; in particular
`linear_combination([2,3], (1,2), (3,4)) == (11,16)`. -/
theorem linear_combination_weighted_sum {α : Type} [CommRing α]
    (scalars : List α) (vectors : List (List α)) (L : Nat)
    (hc : scalars.length = vectors.length) (h2 : 2 ≤ vectors.length)
    (hL : ∀ v ∈ vectors, v.length = L) :
    (∃ r, linear_combination scalars vectors = .ok r ∧ r.length = L ∧
      ∀ i, i < L →
        r.getD i 0 = ((scalars.zip vectors).map (fun p => p.1 * p.2.getD i 0)).sum) ∧
    linear_combination ([2, 3] : List ℤ) [[1, 2], [3, 4]] = .ok [11, 16] :=
  ⟨lc_ok_spec scalars vectors L hc h2 hL, by rfl⟩

/-- C3 witness: the amended claim evaluated at
`linear_combination([2,3], (1,2), (3,4))`. -/
theorem linear_combination_weighted_sum_witness :
    (∃ r, linear_combination ([2, 3] : List ℤ) [[1, 2], [3, 4]] = .ok r ∧
      r.length = 2 ∧
      ∀ i, i < 2 →
        r.getD i 0 =
          ((([2, 3] : List ℤ).zip [[1, 2], [3, 4]]).map
            (fun p => p.1 * p.2.getD i 0)).sum) ∧
    linear_combination ([2, 3] : List ℤ) [[1, 2], [3, 4]] = .ok [11, 16] :=
  linear_combination_weighted_sum [2, 3] [[1, 2], [3, 4]] 2 (by decide) (by decide)
    (by decide)

/-- C4: for two or more vectors all of the same length `N`, `add` returns
the vector of length `N` whose `i`-th component is the sum of the `i`-th
components of all operands; in particular `add((1,2),(3,4)) == (4,6)` and
`add((1,2),(3,4),(5,6)) == (9,12)`. -/
theorem add_componentwise_sum {α : Type} [CommRing α] (vs : List (List α)) (N : Nat)
    (h2 : 2 ≤ vs.length) (hN : ∀ v ∈ vs, v.length = N) :
    (∃ r, add vs = .ok r ∧ r.length = N ∧
      ∀ i, i < N → r.getD i 0 = (vs.map (fun v => v.getD i 0)).sum) ∧
    add ([[1, 2], [3, 4]] : List (List ℤ)) = .ok [4, 6] ∧
    add ([[1, 2], [3, 4], [5, 6]] : List (List ℤ)) = .ok [9, 12] :=
  ⟨add_ok_spec vs N h2 hN, by rfl, by rfl⟩

/-- C4 witness: the claim evaluated at `add((1,2), (3,4))`. -/
theorem add_componentwise_sum_witness :
    (∃ r, add ([[1, 2], [3, 4]] : List (List ℤ)) = .ok r ∧ r.length = 2 ∧
      ∀ i, i < 2 →
        r.getD i 0 = (([[1, 2], [3, 4]] : List (List ℤ)).map (fun v => v.getD i 0)).sum) ∧
    add ([[1, 2], [3, 4]] : List (List ℤ)) = .ok [4, 6] ∧
    add ([[1, 2], [3, 4], [5, 6]] : List (List ℤ)) = .ok [9, 12] :=
  add_componentwise_sum ([[1, 2], [3, 4]] : List (List ℤ)) 2 (by decide) (by decide)

/-- C5: `add` with fewer than two vectors raises
`ValueError("at least two 3D vectors were expected")`. -/
theorem add_insufficient_operands {α : Type} [CommRing α] (vs : List (List α))
    (h : vs.length < 2) :
    add vs = .error "at least two 3D vectors were expected" := by
  rw [add, if_pos h]

/-- C5 witness: `add((1,2,3))` with a single vector fails. -/
theorem add_insufficient_operands_witness :
    add ([[1, 2, 3]] : List (List ℤ)) =
      .error "at least two 3D vectors were expected" :=
  add_insufficient_operands [[1, 2, 3]] (by decide)

/-- C6: `linear_combination` with differing scalar and vector counts raises
`ValueError` before computing anything. -/
theorem linear_combination_count_mismatch {α : Type} [CommRing α]
    (scalars : List α) (vectors : List (List α))
    (h : scalars.length ≠ vectors.length) :
    linear_combination scalars vectors =
      .error "The same number of scalars and vectors are required" := by
  rw [linear_combination, if_pos h]

/-- C6 witness: `linear_combination([1], (1,2), (3,4))` fails with the
count-mismatch error. -/
theorem linear_combination_count_mismatch_witness :
    linear_combination ([1] : List ℤ) [[1, 2], [3, 4]] =
      .error "The same number of scalars and vectors are required" :=
  linear_combination_count_mismatch [1] [[1, 2], [3, 4]] (by decide)

/-- C7: for every vector with a non-zero component, `unit` returns
`scale(1/length(v), v)`, whose length is exactly 1; and `unit` fails (the
division by `length(v)` raises) precisely when `length(v) = 0`. -/
theorem unit_normalizes (v : List ℝ) :
    ((∃ c ∈ v, c ≠ 0) →
      unit v = some (scale (1 / length v) v) ∧
      length (scale (1 / length v) v) = 1) ∧
    (unit v = none ↔ length v = 0) := by
  constructor
  · rintro ⟨c, hc, hc0⟩
    have hpos : 0 < length v := length_pos_of_mem_ne_zero hc hc0
    have hne : length v ≠ 0 := ne_of_gt hpos
    refine ⟨by rw [unit, if_neg hne], ?_⟩
    rw [length_scale, abs_of_pos (one_div_pos.mpr hpos), one_div_mul_cancel hne]
  · constructor
    · intro h
      by_contra hne
      rw [unit, if_neg hne] at h
      exact Option.noConfusion h
    · intro h
      rw [unit, if_pos h]

/-- C7 witness: `unit` evaluated at the non-zero vector `(1, 0, 0)` and the
failure case evaluated at the zero vector `(0, 0, 0)`. -/
theorem unit_normalizes_witness :
    (unit [1, 0, 0] = some (scale (1 / length [1, 0, 0]) [1, 0, 0]) ∧
      length (scale (1 / length [1, 0, 0]) [1, 0, 0]) = 1) ∧
    unit ([0, 0, 0] : List ℝ) = none :=
  ⟨(unit_normalizes [1, 0, 0]).1 ⟨1, by simp, one_ne_zero⟩,
   (unit_normalizes [0, 0, 0]).2.mpr (by simp [length])⟩

/-- C8: the cross product is anti-commutative on 3-component vectors:
`cross(u, v) == scale(-1, cross(v, u))`; and
`cross((1,0,0), (0,1,0)) == (0,0,1)`. -/
theorem cross_anticommutative {α : Type} [CommRing α] (u v : List α)
    (hu : u.length = 3) (hv : v.length = 3) :
    (∃ w, cross v u = some w ∧ cross u v = some (scale (-1) w)) ∧
    cross ([1, 0, 0] : List ℤ) [0, 1, 0] = some [0, 0, 1] := by
  obtain ⟨a, b, c, rfl⟩ := List.length_eq_three.mp hu
  obtain ⟨d, e, f, rfl⟩ := List.length_eq_three.mp hv
  refine ⟨⟨_, rfl, ?_⟩, by rfl⟩
  simp only [cross, scale, List.map_cons, List.map_nil, Option.some.injEq,
    List.cons.injEq, and_true]
  refine ⟨by ring, by ring, by ring⟩

/-- C8 witness: anti-commutativity applied at `u = (1,0,0)`, `v = (0,1,0)`. -/
theorem cross_anticommutative_witness :
    (∃ w, cross ([0, 1, 0] : List ℤ) [1, 0, 0] = some w ∧
      cross ([1, 0, 0] : List ℤ) [0, 1, 0] = some (scale (-1) w)) ∧
    cross ([1, 0, 0] : List ℤ) [0, 1, 0] = some [0, 0, 1] :=
  cross_anticommutative [1, 0, 0] [0, 1, 0] rfl rfl

/-- C9: `cross` on operands that do not both have exactly three components
fails (the tuple unpacking raises) and never returns a value. -/
theorem cross_non3d_errors {α : Type} [CommRing α] (u v : List α)
    (h : u.length ≠ 3 ∨ v.length ≠ 3) : cross u v = none := by
  cases hc : cross u v with
  | none => rfl
  | some w =>
      obtain ⟨h1, h2⟩ := cross_eq_some_lengths hc
      rcases h with h | h
      · exact absurd h1 h
      · exact absurd h2 h

/-- C9 witness: `cross((1,2), (1,2,3))` fails. -/
theorem cross_non3d_errors_witness :
    cross ([1, 2] : List ℤ) [1, 2, 3] = none :=
  cross_non3d_errors [1, 2] [1, 2, 3] (Or.inl (by decide))

/-- C10: over exact real arithmetic, `to_degrees` and `to_radians` are
mutually inverse: `to_degrees(to_radians(x)) = x` and
`to_radians(to_degrees(x)) = x` for every scalar `x`. -/
theorem angle_conversions_inverse (x : ℝ) :
    to_degrees (to_radians x) = x ∧ to_radians (to_degrees x) = x := by
  have hpi : Real.pi ≠ 0 := Real.pi_ne_zero
  constructor
  · rw [to_radians, to_degrees]
    field_simp
  · rw [to_degrees, to_radians]
    field_simp

end Vec3d
